import Mathlib

/-!
Verification development for `timeline.py`, a script that overlays a
temporal-progress bar on an ordered set of timestamped photographs.

Modelling conventions:
* Timestamps (`datetime_obj`) are integer seconds on an absolute axis; the
  source parses `%Y:%m:%d %H:%M:%S`, so every timestamp is a whole second and
  every `timedelta` arising in the program is a whole number of seconds.
* Python's float arithmetic on those durations and on pixel geometry is
  modelled exactly over `ℚ`.
* `timedelta / timedelta` raises `ZeroDivisionError` on a zero divisor; this
  is modelled by `Option`, with `none` standing for the raised exception.
* Drawing through `PIL.ImageDraw` is modelled as emitting a list of `DrawCmd`
  values in the order the source issues the calls; the font's measured
  bounding box (`font.getbbox`) is an input supplied by the font collaborator.
-/

namespace Timeline

/-- A photo record, as initialised by `Frame.__init__`/`Frame.get_datetime`:
the EXIF-derived fields plus the four derived temporal fields, which
`get_datetime` initialises to zero. -/
structure Frame where
  datetime_obj : ℤ
  width : ℕ
  height : ℕ
  datetime_label : String
  timediff : ℤ
  tprogress : ℤ
  tprogress_frac : ℚ
  tprogress_hours : ℤ
  deriving Repr, DecidableEq

/-- `Frame.get_datetime` tail: `timediff = timedelta()`, `tprogress =
timedelta()`, `tprogress_frac = 0`, `tprogress_hours = 0`. -/
def Frame.init (t : ℤ) (w h : ℕ) (label : String) : Frame :=
  { datetime_obj := t, width := w, height := h, datetime_label := label,
    timediff := 0, tprogress := 0, tprogress_frac := 0, tprogress_hours := 0 }

/-- Python's `int()` applied to a rational: truncation toward zero. -/
def pyInt (q : ℚ) : ℤ := if 0 ≤ q then ⌊q⌋ else ⌈q⌉

/-- Python's `/` on durations: `ZeroDivisionError` (`none`) on a zero
divisor, otherwise exact division. -/
def ratDiv (a b : ℚ) : Option ℚ := if b = 0 then none else some (a / b)

/-- Loop body of `Frames.evaluate` for `i > 0`:
`this.timediff = this.datetime_obj - prev.datetime_obj`;
`this.tprogress = this.datetime_obj - tbeg`;
`this.tprogress_frac = this.tprogress / self.tspan` (may raise);
`this.tprogress_hours = int(this.tprogress.total_seconds()/3600 + 0.5)`. -/
def evalFrame (tbeg tspan : ℤ) (prev f : Frame) : Option Frame :=
  let f1 := { f with timediff := f.datetime_obj - prev.datetime_obj }
  let f2 := { f1 with tprogress := f.datetime_obj - tbeg }
  (ratDiv (f2.tprogress : ℚ) (tspan : ℚ)).map fun frac =>
    { f2 with tprogress_frac := frac
            , tprogress_hours := pyInt ((f2.tprogress : ℚ) / 3600 + 0.5) }

/-- The `for i in range(self.length)` loop of `Frames.evaluate`, restricted to
the records with `i > 0` (the `i = 0` iteration only assigns `outfile`, an
output-path string outside the modelled state). `prev` is `self.images[i-1]`,
already updated by the previous iteration. -/
def evaluateLoop (tbeg tspan : ℤ) : Frame → List Frame → Option (List Frame)
  | _, [] => some []
  | prev, f :: rest =>
    match evalFrame tbeg tspan prev f with
    | none => none
    | some f2 =>
      match evaluateLoop tbeg tspan f2 rest with
      | none => none
      | some rest2 => some (f2 :: rest2)

/-- `Frames.evaluate`: `tspan = last.datetime_obj - first.datetime_obj`
(computed only when the sequence is non-empty), then the index loop; the
record at index 0 is left unchanged. -/
def Frames.evaluate (images : List Frame) : Option (List Frame) :=
  match images with
  | [] => some []
  | first :: rest =>
    let tbeg := first.datetime_obj
    let tend := (rest.getLastD first).datetime_obj
    let tspan := tend - tbeg
    (evaluateLoop tbeg tspan first rest).map (first :: ·)

/-- Pure image of the `i > 0` loop body when the division succeeds: only the
previous record's timestamp matters to it. -/
def evalOne (tbeg tspan prevT : ℤ) (f : Frame) : Frame :=
  { f with timediff := f.datetime_obj - prevT
         , tprogress := f.datetime_obj - tbeg
         , tprogress_frac := ((f.datetime_obj - tbeg : ℤ) : ℚ) / ((tspan : ℤ) : ℚ)
         , tprogress_hours :=
             pyInt (((f.datetime_obj - tbeg : ℤ) : ℚ) / 3600 + 0.5) }

/-- Pure image of `evaluateLoop` when no division fails. -/
def loopPure (tbeg tspan : ℤ) : ℤ → List Frame → List Frame
  | _, [] => []
  | prevT, f :: rest =>
    evalOne tbeg tspan prevT f :: loopPure tbeg tspan f.datetime_obj rest

/-- The spec's rounding rule for `elapsedHours`: round to the nearest
integer, halves up. -/
def roundHalfUp (q : ℚ) : ℤ := ⌊q + 1 / 2⌋

/-! ## Renderer: `Frame.timeline` -/

/-- One drawing call on the `ImageDraw` surface, with its arguments. -/
inductive DrawCmd where
  | rectangle (x0 y0 x1 y1 : ℚ) (fill : String)
  | line (x0 y0 x1 y1 : ℚ) (fill : String) (width : ℚ)
  | ellipse (x0 y0 x1 y1 : ℚ) (fill : String) (width : ℚ)
  | text (x y : ℚ) (label : String) (anchor : String) (fill : String)
  deriving Repr, DecidableEq

/-- `xlen = 0.95 * self.width`. -/
def xlen (width : ℚ) : ℚ := 0.95 * width

/-- `xoff = ( self.width - xlen ) / 2.0`. -/
def xoff (width : ℚ) : ℚ := (width - xlen width) / 2

/-- `xprog = xoff + xlen * self.tprogress_frac`. -/
def xprog (width frac : ℚ) : ℚ := xoff width + xlen width * frac

/-- The three-branch label placement at the end of `Frame.timeline`:
left-edge anchor `ld` at `xoff` when the label would be cut off on the left,
right-edge anchor `rd` at `xoff+xlen` when it would be cut off on the right,
otherwise centered anchor `md` at `xprog`. -/
def labelCmd (width frac span ylab : ℚ) (label : String) : DrawCmd :=
  if xprog width frac - 0.5 * span < xoff width then
    DrawCmd.text (xoff width) ylab label "ld" "white"
  else if xprog width frac + 0.5 * span > xoff width + xlen width then
    DrawCmd.text (xoff width + xlen width) ylab label "rd" "white"
  else
    DrawCmd.text (xprog width frac) ylab label "md" "white"

/-- `Frame.timeline`: emits the drawing commands in source order and returns
the object state after the call. `bbox` is `self.font.getbbox(label)`, the
font collaborator's measured `(left, top, right, bottom)` box. -/
def Frame.timeline (self : Frame) (bbox : ℚ × ℚ × ℚ × ℚ) :
    List DrawCmd × Frame :=
  let rad : ℚ := 15
  let line_wid : ℚ := 10
  let w : ℚ := self.width
  let yoff := 0.98 * (self.height : ℚ)
  let label := self.datetime_label
  let ylab := yoff - 1.25 * rad
  let (left, top, right, bottom) := bbox
  let span := right - left
  let height := bottom - top
  let box_xlen := w
  let box_ylen := (self.height : ℚ) - yoff + 2.25 * rad + 1.5 * height
  let box_xoff : ℚ := 0
  let box_yoff := (self.height : ℚ)
  ([ DrawCmd.rectangle box_xoff (box_yoff - box_ylen)
       (box_xoff + box_xlen) box_yoff "black"
   , DrawCmd.line (xoff w) yoff (xoff w + xlen w) yoff "gray" line_wid
   , DrawCmd.ellipse (xprog w self.tprogress_frac - rad) (yoff - rad)
       (xprog w self.tprogress_frac + rad) (yoff + rad) "red" 1
   , DrawCmd.line (xoff w) yoff (xprog w self.tprogress_frac) yoff
       "red" (2 * rad)
   , labelCmd w self.tprogress_frac span ylab label
   ], self)

/-- Modelled from the spec: the drawing surface's horizontal text-anchor
semantics (the surface itself is an excluded collaborator). An `l…` anchor
puts the left edge at `x`, an `r…` anchor the right edge, an `m…` anchor
centers the text on `x`; the result is the label's horizontal extent. -/
def anchorExtent (anchor : String) (x span : ℚ) : ℚ × ℚ :=
  if anchor = "ld" then (x, x + span)
  else if anchor = "rd" then (x - span, x)
  else (x - span / 2, x + span / 2)

/-! ## Iterator protocol: `Frames.__iter__` / `Frames.__next__` -/

/-- The mutable iteration state of a `Frames` object: the image list, the
cursor `index` (initialised to `-1`), and the stored `length`. -/
structure FramesState where
  images : List Frame
  index : ℤ
  length : ℕ
  deriving Repr, DecidableEq

/-- `Frames.__init__` state (after loading): `index = -1`,
`length = len(images)`. -/
def FramesState.mk0 (images : List Frame) : FramesState :=
  { images := images, index := -1, length := images.length }

/-- `Frames.__iter__`: `return self` — no cursor reset. -/
def FramesState.iter (s : FramesState) : FramesState := s

/-- `Frames.__next__`: raise `StopIteration` (`none`) on an empty list;
otherwise increment `index` and return the element when the incremented
`index < length`, else raise. The returned state is the object after the
call (the increment happens even when `StopIteration` is raised). -/
def FramesState.next (s : FramesState) : Option Frame × FramesState :=
  if s.images.length = 0 then (none, s)
  else if s.index + 1 < (s.length : ℤ) then
    (s.images.get? (s.index + 1).toNat, { s with index := s.index + 1 })
  else (none, { s with index := s.index + 1 })

/-- A `for` loop over the iterator: repeatedly call `__next__`, collecting
yielded elements until `StopIteration`; `fuel` bounds the number of calls. -/
def drain : ℕ → FramesState → List Frame × FramesState
  | 0, s => ([], s)
  | fuel + 1, s =>
    match s.next with
    | (some a, s2) =>
      let r := drain fuel s2
      (a :: r.1, r.2)
    | (none, s2) => ([], s2)

/-! ## Lemmas about the evaluator -/

lemma pyInt_of_nonneg (q : ℚ) (h : 0 ≤ q) : pyInt q = ⌊q⌋ := if_pos h

instance : Inhabited Frame := ⟨Frame.init 0 0 0 ""⟩

lemma evalFrame_some (tbeg tspan : ℤ) (h : tspan ≠ 0) (prev f : Frame) :
    evalFrame tbeg tspan prev f = some (evalOne tbeg tspan prev.datetime_obj f) := by
  have hq : ((tspan : ℤ) : ℚ) ≠ 0 := by exact_mod_cast h
  simp only [evalFrame, ratDiv, if_neg hq]
  rfl

lemma evaluateLoop_eq_loopPure (tbeg tspan : ℤ) (h : tspan ≠ 0) (fs : List Frame) :
    ∀ prev : Frame,
      evaluateLoop tbeg tspan prev fs = some (loopPure tbeg tspan prev.datetime_obj fs) := by
  induction fs with
  | nil => intro prev; rfl
  | cons f rest ih =>
    intro prev
    simp only [evaluateLoop, evalFrame_some tbeg tspan h prev f,
      ih (evalOne tbeg tspan prev.datetime_obj f), loopPure]
    rfl

lemma evaluateLoop_zero_none (tbeg : ℤ) (prev f : Frame) (rest : List Frame) :
    evaluateLoop tbeg 0 prev (f :: rest) = none := by
  simp [evaluateLoop, evalFrame, ratDiv]

lemma loopPure_map_frac (tbeg tspan : ℤ) (fs : List Frame) : ∀ prevT : ℤ,
    (loopPure tbeg tspan prevT fs).map (·.tprogress_frac) =
      fs.map (fun g => ((g.datetime_obj - tbeg : ℤ) : ℚ) / ((tspan : ℤ) : ℚ)) := by
  induction fs with
  | nil => intro prevT; rfl
  | cons f rest ih =>
    intro prevT
    simp only [loopPure, List.map_cons, ih f.datetime_obj]
    rfl

lemma loopPure_mem (tbeg tspan : ℤ) (fs : List Frame) : ∀ (prevT : ℤ) (g : Frame),
    g ∈ loopPure tbeg tspan prevT fs →
      ∃ s ∈ fs, g.datetime_obj = s.datetime_obj ∧
        g.tprogress = s.datetime_obj - tbeg ∧
        g.tprogress_frac =
          ((s.datetime_obj - tbeg : ℤ) : ℚ) / ((tspan : ℤ) : ℚ) ∧
        g.tprogress_hours = pyInt (((s.datetime_obj - tbeg : ℤ) : ℚ) / 3600 + 0.5) := by
  induction fs with
  | nil => intro prevT g hg; cases hg
  | cons f rest ih =>
    intro prevT g hg
    rcases List.mem_cons.mp hg with hg | hg
    · exact ⟨f, List.mem_cons_self f rest, by rw [hg]; exact ⟨rfl, rfl, rfl, rfl⟩⟩
    · obtain ⟨s, hs, h1, h2, h3, h4⟩ := ih f.datetime_obj g hg
      exact ⟨s, List.mem_cons_of_mem f hs, h1, h2, h3, h4⟩

lemma loopPure_getLastD_frac (tbeg tspan : ℤ) (rs : List Frame) :
    ∀ (r : Frame) (prevT : ℤ) (d d2 : Frame),
      ((loopPure tbeg tspan prevT (r :: rs)).getLastD d).tprogress_frac =
        ((((r :: rs).getLastD d2).datetime_obj - tbeg : ℤ) : ℚ) /
          ((tspan : ℤ) : ℚ) := by
  induction rs with
  | nil =>
    intro r prevT d d2
    simp [loopPure, evalOne, List.getLastD_cons]
  | cons s ss ih =>
    intro r prevT d d2
    have h1 : loopPure tbeg tspan prevT (r :: s :: ss) =
        evalOne tbeg tspan prevT r ::
          loopPure tbeg tspan r.datetime_obj (s :: ss) := rfl
    rw [h1, List.getLastD_cons, List.getLastD_cons]
    exact ih s r.datetime_obj (evalOne tbeg tspan prevT r) r

/-! ## Claim theorems -/

/-- C1, counterexample: on two records sharing one timestamp,
`Frames.evaluate` divides the zero elapsed time by the zero total span and
raises `ZeroDivisionError` (modelled as `none`), instead of defining
`progressFraction = 0` without failure as the claim states. -/
theorem evaluate_two_equal_counterexample :
    Frames.evaluate [Frame.init 0 1 1 "a", Frame.init 0 1 1 "a"] = none := by
  rfl

/-- C1 (amended): when the total span is zero, the outcome splits by length.
A single-record sequence is returned unchanged — its `progressFraction` stays
at its initialised value `0` and no failure is raised. But for two or more
records that all share one timestamp, `evaluate` reaches
`tprogress / tspan` with a zero `tspan` and raises `ZeroDivisionError`. -/
theorem evaluate_zero_span :
    (∀ (t : ℤ) (w h : ℕ) (lb : String),
      Frames.evaluate [Frame.init t w h lb] = some [Frame.init t w h lb]) ∧
    (∀ (f g : Frame) (rest : List Frame),
      (∀ x ∈ f :: g :: rest, x.datetime_obj = f.datetime_obj) →
      Frames.evaluate (f :: g :: rest) = none) := by
  constructor
  · intro t w h lb; rfl
  · intro f g rest hall
    have hlast : ((g :: rest).getLastD f).datetime_obj = f.datetime_obj :=
      hall _ (List.getLastD_mem_cons (g :: rest) f)
    simp only [Frames.evaluate, hlast, sub_self]
    rw [evaluateLoop_zero_none]
    rfl

/-- C1 witness. -/
theorem evaluate_zero_span_witness :
    Frames.evaluate [Frame.init 5 2 2 "b"] = some [Frame.init 5 2 2 "b"] ∧
    Frames.evaluate [Frame.init 7 2 2 "b", Frame.init 7 3 3 "c"] = none :=
  ⟨evaluate_zero_span.1 5 2 2 "b",
   evaluate_zero_span.2 (Frame.init 7 2 2 "b") (Frame.init 7 3 3 "c") []
     (by decide)⟩

/-- C2: for a non-empty time-ascending sequence of strictly positive total
span, `evaluate` succeeds, the first record's `progressFraction` is exactly
`0` (it keeps its initialised value) and the last record's is exactly `1`. -/
theorem evaluate_endpoints (f : Frame) (rest : List Frame)
    (hsorted : (f :: rest).Pairwise (fun a b => a.datetime_obj ≤ b.datetime_obj))
    (hinit : f.tprogress_frac = 0)
    (hspan : f.datetime_obj < (rest.getLastD f).datetime_obj) :
    ∃ out, Frames.evaluate (f :: rest) = some out ∧ out ≠ [] ∧
      out.headI.tprogress_frac = 0 ∧ (out.getLastD f).tprogress_frac = 1 := by
  have htspan : (rest.getLastD f).datetime_obj - f.datetime_obj ≠ 0 := by omega
  have hloop := evaluateLoop_eq_loopPure f.datetime_obj
    ((rest.getLastD f).datetime_obj - f.datetime_obj) htspan rest f
  refine ⟨f :: loopPure f.datetime_obj
      ((rest.getLastD f).datetime_obj - f.datetime_obj) f.datetime_obj rest,
    ?_, by simp, hinit, ?_⟩
  · simp only [Frames.evaluate]
    rw [hloop]
    rfl
  · rcases rest with _ | ⟨r, rs⟩
    · exact absurd hspan (lt_irrefl _)
    · rw [List.getLastD_cons,
        loopPure_getLastD_frac f.datetime_obj
          (((r :: rs).getLastD f).datetime_obj - f.datetime_obj) rs r
          f.datetime_obj f f]
      exact div_self (Int.cast_ne_zero.mpr htspan)

/-- C2 witness. -/
theorem evaluate_endpoints_witness :
    ∃ out, Frames.evaluate
        [Frame.init 0 4032 3024 "a", Frame.init 43200 4032 3024 "b",
         Frame.init 86400 4032 3024 "c"] = some out ∧ out ≠ [] ∧
      out.headI.tprogress_frac = 0 ∧
      (out.getLastD (Frame.init 0 4032 3024 "a")).tprogress_frac = 1 :=
  evaluate_endpoints (Frame.init 0 4032 3024 "a")
    [Frame.init 43200 4032 3024 "b", Frame.init 86400 4032 3024 "c"]
    (by decide) rfl (by decide)

/-- C7: after a successful `evaluate` of a time-ascending sequence whose
first record is freshly initialised, every record's `elapsedHours` equals its
elapsed time converted to hours and rounded to the nearest integer with
halves rounded up. -/
theorem evaluate_hours_round_half_up (f : Frame) (rest out : List Frame)
    (hasc : (f :: rest).Pairwise (fun a b => a.datetime_obj ≤ b.datetime_obj))
    (hinit : f.tprogress = 0 ∧ f.tprogress_hours = 0)
    (heval : Frames.evaluate (f :: rest) = some out) :
    ∀ g ∈ out, g.tprogress_hours = roundHalfUp ((g.tprogress : ℚ) / 3600) := by
  intro g hg
  simp only [Frames.evaluate] at heval
  rw [Option.map_eq_some'] at heval
  obtain ⟨L, hL, hout⟩ := heval
  subst hout
  rcases List.mem_cons.mp hg with rfl | hg
  · rw [hinit.2, hinit.1]
    norm_num [roundHalfUp]
  · rcases rest with _ | ⟨r, rs⟩
    · rw [show evaluateLoop f.datetime_obj
          ((List.getLastD [] f).datetime_obj - f.datetime_obj) f [] = some []
          from rfl, Option.some.injEq] at hL
      rw [← hL] at hg
      cases hg
    · have htspan : ((r :: rs).getLastD f).datetime_obj - f.datetime_obj ≠ 0 := by
        intro h0
        rw [h0, evaluateLoop_zero_none] at hL
        exact Option.noConfusion hL
      rw [evaluateLoop_eq_loopPure _ _ htspan _ f, Option.some.injEq] at hL
      rw [← hL] at hg
      obtain ⟨s, hs, hdt, hprog, hfrac, hhours⟩ :=
        loopPure_mem _ _ _ _ g hg
      have hle : f.datetime_obj ≤ s.datetime_obj :=
        (List.pairwise_cons.mp hasc).1 s hs
      have hx : (0 : ℚ) ≤ ((s.datetime_obj - f.datetime_obj : ℤ) : ℚ) / 3600 :=
        div_nonneg (by exact_mod_cast sub_nonneg.mpr hle) (by norm_num)
      rw [hhours, hprog, pyInt_of_nonneg _ (by linarith)]
      norm_num [roundHalfUp]

/-- C7 witness. -/
theorem evaluate_hours_round_half_up_witness :
    (⟨1800, 10, 10, "b", 1800, 1800, 1, 1⟩ : Frame).tprogress_hours =
      roundHalfUp
        (((⟨1800, 10, 10, "b", 1800, 1800, 1, 1⟩ : Frame).tprogress : ℚ) / 3600) :=
  evaluate_hours_round_half_up (Frame.init 0 10 10 "a")
    [Frame.init 1800 10 10 "b"]
    [Frame.init 0 10 10 "a", (⟨1800, 10, 10, "b", 1800, 1800, 1, 1⟩ : Frame)]
    (by decide) ⟨rfl, rfl⟩
    (by norm_num [Frames.evaluate, evaluateLoop, evalFrame, ratDiv, pyInt,
      Frame.init])
    (⟨1800, 10, 10, "b", 1800, 1800, 1, 1⟩ : Frame) (by decide)

/-- C8: whenever the input timestamps are non-decreasing with index, the
first record is freshly initialised, and `evaluate` succeeds, the resulting
`progressFraction` values are non-decreasing with index. -/
theorem evaluate_frac_monotone (frames out : List Frame)
    (hasc : frames.Pairwise (fun a b => a.datetime_obj ≤ b.datetime_obj))
    (hinit : ∀ g, frames.head? = some g → g.tprogress_frac = 0)
    (heval : Frames.evaluate frames = some out) :
    out.Pairwise (fun a b => a.tprogress_frac ≤ b.tprogress_frac) := by
  rcases frames with _ | ⟨f, rest⟩
  · rw [show Frames.evaluate [] = some [] from rfl, Option.some.injEq] at heval
    rw [← heval]
    exact List.Pairwise.nil
  · simp only [Frames.evaluate] at heval
    rw [Option.map_eq_some'] at heval
    obtain ⟨L, hL, hout⟩ := heval
    subst hout
    have hf0 : f.tprogress_frac = 0 := hinit f rfl
    rcases rest with _ | ⟨r, rs⟩
    · rw [show evaluateLoop f.datetime_obj
          ((List.getLastD [] f).datetime_obj - f.datetime_obj) f [] = some []
          from rfl, Option.some.injEq] at hL
      rw [← hL]
      exact List.pairwise_cons.mpr ⟨(by intro b hb; cases hb), List.Pairwise.nil⟩
    · have htspan : ((r :: rs).getLastD f).datetime_obj - f.datetime_obj ≠ 0 := by
        intro h0
        rw [h0, evaluateLoop_zero_none] at hL
        exact Option.noConfusion hL
      have hhead : ∀ b ∈ r :: rs, f.datetime_obj ≤ b.datetime_obj :=
        (List.pairwise_cons.mp hasc).1
      have htail : (r :: rs).Pairwise (fun a b => a.datetime_obj ≤ b.datetime_obj) :=
        (List.pairwise_cons.mp hasc).2
      have hts_pos : (0 : ℤ) < ((r :: rs).getLastD f).datetime_obj - f.datetime_obj := by
        rcases List.mem_cons.mp (List.getLastD_mem_cons (r :: rs) f) with he | he
        · rw [he] at htspan
          omega
        · have := hhead _ he
          omega
      have hts_posq :
          (0 : ℚ) < ((((r :: rs).getLastD f).datetime_obj - f.datetime_obj : ℤ) : ℚ) := by
        exact_mod_cast hts_pos
      rw [evaluateLoop_eq_loopPure _ _ htspan _ f, Option.some.injEq] at hL
      rw [← hL]
      refine List.pairwise_cons.mpr ⟨?_, ?_⟩
      · intro b hb
        obtain ⟨s, hs, hdt, hprog, hfrac, hhours⟩ := loopPure_mem _ _ _ _ b hb
        rw [hf0, hfrac]
        exact div_nonneg
          (by exact_mod_cast sub_nonneg.mpr (hhead s hs)) (le_of_lt hts_posq)
      · have hmap := loopPure_map_frac f.datetime_obj
          (((r :: rs).getLastD f).datetime_obj - f.datetime_obj) (r :: rs)
          f.datetime_obj
        have hpw : List.Pairwise (· ≤ ·)
            ((loopPure f.datetime_obj
              (((r :: rs).getLastD f).datetime_obj - f.datetime_obj)
              f.datetime_obj (r :: rs)).map (·.tprogress_frac)) := by
          rw [hmap, List.pairwise_map]
          refine htail.imp ?_
          intro a b hab
          exact (div_le_div_iff_of_pos_right hts_posq).mpr
            (by exact_mod_cast sub_le_sub_right hab f.datetime_obj)
        exact List.pairwise_map.mp hpw

/-- C8 witness. -/
theorem evaluate_frac_monotone_witness :
    List.Pairwise (fun a b : Frame => a.tprogress_frac ≤ b.tprogress_frac)
      [Frame.init 0 10 10 "a",
       (⟨1800, 10, 10, "b", 1800, 1800, 1, 1⟩ : Frame)] :=
  evaluate_frac_monotone
    [Frame.init 0 10 10 "a", Frame.init 1800 10 10 "b"] _ (by decide)
    (by intro g hgg; cases hgg; rfl)
    (by norm_num [Frames.evaluate, evaluateLoop, evalFrame, ratDiv, pyInt,
      Frame.init])

/-- C3: the label placement is decided by exactly three mutually exclusive
cases tested in this order — left overflow anchors the label's left edge at
the bar start, else right overflow anchors its right edge at the bar end,
else the label is centered on the marker. -/
theorem labelCmd_cases (w fr sp yl : ℚ) (lb : String) :
    (xprog w fr - sp / 2 < xoff w →
      labelCmd w fr sp yl lb = DrawCmd.text (xoff w) yl lb "ld" "white") ∧
    (¬ (xprog w fr - sp / 2 < xoff w) →
      xprog w fr + sp / 2 > xoff w + xlen w →
      labelCmd w fr sp yl lb =
        DrawCmd.text (xoff w + xlen w) yl lb "rd" "white") ∧
    (¬ (xprog w fr - sp / 2 < xoff w) →
      ¬ (xprog w fr + sp / 2 > xoff w + xlen w) →
      labelCmd w fr sp yl lb = DrawCmd.text (xprog w fr) yl lb "md" "white") := by
  have hhalf : (0.5 : ℚ) * sp = sp / 2 := by norm_num; ring
  refine ⟨?_, ?_, ?_⟩ <;> unfold labelCmd <;> rw [hhalf] <;> intros
  · rw [if_pos (by assumption)]
  · rw [if_neg (by assumption), if_pos (by assumption)]
  · rw [if_neg (by assumption), if_neg (by assumption)]

/-- C3 witness. -/
theorem labelCmd_cases_witness :
    labelCmd 100 0 50 5 "x" = DrawCmd.text (xoff 100) 5 "x" "ld" "white" ∧
    labelCmd 100 1 50 5 "x" =
      DrawCmd.text (xoff 100 + xlen 100) 5 "x" "rd" "white" ∧
    labelCmd 100 (1/2) 50 5 "x" =
      DrawCmd.text (xprog 100 (1/2)) 5 "x" "md" "white" :=
  ⟨(labelCmd_cases 100 0 50 5 "x").1 (by norm_num [xprog, xoff, xlen]),
   (labelCmd_cases 100 1 50 5 "x").2.1 (by norm_num [xprog, xoff, xlen])
     (by norm_num [xprog, xoff, xlen]),
   (labelCmd_cases 100 (1/2) 50 5 "x").2.2 (by norm_num [xprog, xoff, xlen])
     (by norm_num [xprog, xoff, xlen])⟩

/-- C4: whenever the measured label width is nonnegative and at most the bar
length, the rendered label's horizontal extent lies within
`[barOffsetX, barOffsetX + barLength]`, for every value of
`progressFraction`. -/
theorem label_extent_within_bar (w fr sp yl : ℚ) (lb : String)
    (hsp0 : 0 ≤ sp) (hsp : sp ≤ xlen w) :
    ∃ x an, labelCmd w fr sp yl lb = DrawCmd.text x yl lb an "white" ∧
      xoff w ≤ (anchorExtent an x sp).1 ∧
      (anchorExtent an x sp).2 ≤ xoff w + xlen w := by
  unfold labelCmd
  split_ifs with h1 h2
  · refine ⟨xoff w, "ld", rfl, ?_, ?_⟩ <;> simp [anchorExtent] <;> linarith
  · refine ⟨xoff w + xlen w, "rd", rfl, ?_, ?_⟩ <;>
      simp [anchorExtent] <;> linarith
  · refine ⟨xprog w fr, "md", rfl, ?_, ?_⟩ <;>
      simp [anchorExtent] <;> linarith

/-- C4 witness. -/
theorem label_extent_within_bar_witness :
    ∃ x an, labelCmd 100 0 50 5 "y" = DrawCmd.text x 5 "y" an "white" ∧
      xoff 100 ≤ (anchorExtent an x 50).1 ∧
      (anchorExtent an x 50).2 ≤ xoff 100 + xlen 100 :=
  label_extent_within_bar 100 0 50 5 "y" (by norm_num) (by norm_num [xlen])

/-- C5, counterexample: the claimed order "background, bar, progress line,
marker disc, label" does not hold — at a concrete frame the third drawing
command is the marker ellipse, not the progress line. -/
theorem timeline_order_counterexample :
    ¬ ∃ (a b c d : ℚ) (f1 : String) (e1 e2 e3 e4 : ℚ) (f2 : String) (w1 : ℚ)
        (p1 p2 p3 p4 : ℚ) (f3 : String) (w2 : ℚ) (q1 q2 q3 q4 : ℚ)
        (f4 : String) (w3 : ℚ) (x y : ℚ) (lb an f5 : String),
      (Frame.timeline (Frame.init 0 100 100 "a") (0, 0, 10, 5)).1 =
        [DrawCmd.rectangle a b c d f1,
         DrawCmd.line e1 e2 e3 e4 f2 w1,
         DrawCmd.line p1 p2 p3 p4 f3 w2,
         DrawCmd.ellipse q1 q2 q3 q4 f4 w3,
         DrawCmd.text x y lb an f5] := by
  rintro ⟨a, b, c, d, f1, e1, e2, e3, e4, f2, w1, p1, p2, p3, p4, f3, w2,
    q1, q2, q3, q4, f4, w3, x, y, lb, an, f5, h⟩
  simp [Frame.timeline] at h

/-- C5 (amended): for every frame, `timeline` issues its drawing commands in
exactly this order (later draws on top of earlier ones): background panel,
then static bar, then marker disc, then progress line from the bar start to
the marker, then the label — the marker disc is drawn before the progress
line, not after it. -/
theorem timeline_draw_order (f : Frame) (bbox : ℚ × ℚ × ℚ × ℚ) :
    ∃ (r1 r2 r3 r4 l1 l2 l3 l4 lw e1 e2 e3 e4 p1 p2 p3 p4 pw x y : ℚ)
      (an : String),
      (Frame.timeline f bbox).1 =
        [DrawCmd.rectangle r1 r2 r3 r4 "black",
         DrawCmd.line l1 l2 l3 l4 "gray" lw,
         DrawCmd.ellipse e1 e2 e3 e4 "red" 1,
         DrawCmd.line p1 p2 p3 p4 "red" pw,
         DrawCmd.text x y f.datetime_label an "white"] := by
  obtain ⟨bl, bt, br, bb⟩ := bbox
  simp only [Frame.timeline]
  unfold labelCmd
  split_ifs <;>
    exact ⟨_, _, _, _, _, _, _, _, _, _, _, _, _, _, _, _, _, _, _, _, _, rfl⟩

/-- C6: the bar and marker geometry satisfies `xlen = 0.95 * width`,
`xoff = (width - xlen) / 2`, and `xprog = xoff + xlen * frac`, so the marker
center is a linear function of the progress fraction with `xprog 0 = xoff`
and `xprog 1 = xoff + xlen`. -/
theorem marker_geometry (w fr : ℚ) :
    xlen w = 0.95 * w ∧
    xoff w = (w - xlen w) / 2 ∧
    xprog w fr = xoff w + xlen w * fr ∧
    xprog w 0 = xoff w ∧
    xprog w 1 = xoff w + xlen w := by
  refine ⟨rfl, rfl, rfl, ?_, ?_⟩ <;> simp [xprog]

/-- C9: rendering the timeline overlay only emits drawing commands; every
evaluated field of the record has the same value after the call as before. -/
theorem timeline_preserves_frame (f : Frame) (bbox : ℚ × ℚ × ℚ × ℚ) :
    (Frame.timeline f bbox).2.datetime_obj = f.datetime_obj ∧
    (Frame.timeline f bbox).2.width = f.width ∧
    (Frame.timeline f bbox).2.height = f.height ∧
    (Frame.timeline f bbox).2.datetime_label = f.datetime_label ∧
    (Frame.timeline f bbox).2.timediff = f.timediff ∧
    (Frame.timeline f bbox).2.tprogress = f.tprogress ∧
    (Frame.timeline f bbox).2.tprogress_frac = f.tprogress_frac ∧
    (Frame.timeline f bbox).2.tprogress_hours = f.tprogress_hours := by
  obtain ⟨bl, bt, br, bb⟩ := bbox
  exact ⟨rfl, rfl, rfl, rfl, rfl, rfl, rfl, rfl⟩

/-! ## Lemmas about the iterator protocol -/

lemma drain_succ (fuel : ℕ) (s : FramesState) :
    drain (fuel + 1) s = (match s.next with
      | (some a, s2) => (a :: (drain fuel s2).1, (drain fuel s2).2)
      | (none, s2) => ([], s2)) := rfl

lemma next_stopped (s : FramesState) (h : (s.length : ℤ) ≤ s.index + 1) :
    ∃ s2, s.next = (none, s2) := by
  unfold FramesState.next
  split_ifs with h0 h1
  · exact ⟨s, rfl⟩
  · exact absurd h1 (by omega)
  · exact ⟨_, rfl⟩

lemma drain_stopped (fuel : ℕ) (s : FramesState)
    (h : (s.length : ℤ) ≤ s.index + 1) : (drain fuel s).1 = [] := by
  cases fuel with
  | zero => rfl
  | succ n =>
    obtain ⟨s2, hs⟩ := next_stopped s h
    simp [drain, hs]

lemma next_running (images : List Frame) (c : ℕ) (him : images ≠ [])
    (hclt : c < images.length) :
    FramesState.next ⟨images, (c : ℤ) - 1, images.length⟩ =
      (some (images.get ⟨c, hclt⟩),
        ⟨images, ((c + 1 : ℕ) : ℤ) - 1, images.length⟩) := by
  have h0 : ¬ images.length = 0 := by
    simpa [List.length_eq_zero] using him
  simp only [FramesState.next]
  rw [if_neg h0]
  rw [show (c : ℤ) - 1 + 1 = ((c : ℕ) : ℤ) from by ring]
  rw [if_pos (show ((c : ℕ) : ℤ) < (images.length : ℤ) from by exact_mod_cast hclt)]
  rw [Int.toNat_ofNat, List.get?_eq_get hclt]
  rw [show ((c + 1 : ℕ) : ℤ) - 1 = ((c : ℕ) : ℤ) from by push_cast; ring]

lemma next_last (images : List Frame) (him : images ≠ []) :
    FramesState.next ⟨images, (images.length : ℤ) - 1, images.length⟩ =
      (none, ⟨images, (images.length : ℤ), images.length⟩) := by
  have h0 : ¬ images.length = 0 := by
    simpa [List.length_eq_zero] using him
  simp only [FramesState.next]
  rw [if_neg h0]
  rw [if_neg (show ¬ ((images.length : ℤ) - 1 + 1 < (images.length : ℤ)) from
    by omega)]
  rw [show (images.length : ℤ) - 1 + 1 = (images.length : ℤ) from by ring]

lemma drain_pass (images : List Frame) (him : images ≠ []) : ∀ (k c : ℕ),
    c ≤ images.length → k = images.length - c →
    drain (k + 1) ⟨images, (c : ℤ) - 1, images.length⟩ =
      (images.drop c, ⟨images, (images.length : ℤ), images.length⟩) := by
  intro k
  induction k with
  | zero =>
    intro c hc hk
    have hc2 : c = images.length := by omega
    subst hc2
    rw [drain_succ, next_last images him]
    simp [List.drop_length]
  | succ n ih =>
    intro c hc hk
    have hclt : c < images.length := by omega
    have hone : drain (n + 1 + 1) ⟨images, (c : ℤ) - 1, images.length⟩ =
        (images.get ⟨c, hclt⟩ ::
          (drain (n + 1) ⟨images, ((c + 1 : ℕ) : ℤ) - 1, images.length⟩).1,
         (drain (n + 1) ⟨images, ((c + 1 : ℕ) : ℤ) - 1, images.length⟩).2) := by
      rw [drain_succ, next_running images c him hclt]
    rw [hone, ih (c + 1) (by omega) (by omega)]
    rw [List.drop_eq_getElem_cons hclt]
    rfl

/-- C10: the collection's `__iter__` returns the collection itself without
resetting its cursor, so one complete pass over a non-empty collection
consumes it: the pass yields exactly the stored images, and every subsequent
iteration of the same (re-"iterated") collection yields no elements. -/
theorem frames_iterator_single_use (images : List Frame) (him : images ≠ []) :
    ∃ s1, drain (images.length + 1) (FramesState.mk0 images) = (images, s1) ∧
      FramesState.iter s1 = s1 ∧
      ∀ fuel, (drain fuel (FramesState.iter s1)).1 = [] := by
  refine ⟨⟨images, (images.length : ℤ), images.length⟩, ?_, rfl, ?_⟩
  · have h := drain_pass images him images.length 0 (by omega) (by omega)
    simpa [FramesState.mk0] using h
  · intro fuel
    exact drain_stopped fuel _
      (show (images.length : ℤ) ≤ (images.length : ℤ) + 1 from by omega)

/-- C10 witness. -/
theorem frames_iterator_single_use_witness :
    ∃ s1, drain ([Frame.init 0 1 1 "a"].length + 1)
        (FramesState.mk0 [Frame.init 0 1 1 "a"]) = ([Frame.init 0 1 1 "a"], s1) ∧
      FramesState.iter s1 = s1 ∧
      ∀ fuel, (drain fuel (FramesState.iter s1)).1 = [] :=
  frames_iterator_single_use [Frame.init 0 1 1 "a"] (by decide)

end Timeline
